import Mathlib

/-!
Verification of the redis-janitor reconciler (`redis_janitor/janitors.py`).

The shallow embedding below translates the `RedisJanitor` class into Lean:

* Timestamps (`datetime.datetime` instants) are modelled as integers counting
  seconds; `datetime.datetime.now(pytz.UTC)` becomes an explicit `now : Int`
  parameter threaded through every operation that consults the clock.
  `isoformat` renders an instant as its decimal string and
  `dateutil.parser.parse` is modelled as decimal-string parsing
  (`String.toInt?`); an unparsable string parses to `none`, modelling the
  parse exception.
* The redis keyspace is a single association list from key to a typed value
  (hash or list), mirroring redis's one keyspace with per-command type checks:
  a command applied to a key of the wrong type is a `WRONGTYPE` error,
  modelled by `Option` (`none` = a raised exception).  `SCAN` iteration order
  is modelled as store order, and the glob pattern `P:*` used by the janitor
  matches exactly the keys having `P:` as a prefix.
* The Kubernetes call in `list_pod_for_all_namespaces` is modelled by an
  explicit `fetch : Except String (List Pod)` argument: `.ok pods` is a
  successful API response, `.error e` an `ApiException`, which the source
  catches, logs, and converts to the empty list.
* Logging and timing calls have no observable effect and are dropped.
-/

namespace RedisJanitorModel

/-- A Kubernetes pod as consumed by the janitor: `pod.metadata.name` and
`pod.status.phase`. -/
structure Pod where
  name : String
  phase : String
deriving DecidableEq, Repr

/-- A redis value: every key holds either a hash (field map) or a list.
Commands check the type at the key and raise `WRONGTYPE` on mismatch. -/
inductive RedisVal where
  | hash (fields : List (String × String))
  | list (items : List String)
deriving DecidableEq, Repr

/-- The redis keyspace: an association list from key to value (first match
wins; update keeps the list duplicate-free at the touched key). -/
def Store := List (String × RedisVal)

instance : DecidableEq Store := by
  unfold Store
  infer_instance

/-- Association-list lookup for the value held at a redis key. -/
def lookupVal : Store → String → Option RedisVal
  | [], _ => none
  | (k, v) :: rest, key => if k = key then some v else lookupVal rest key

/-- Set the value at a redis key, replacing the first binding or appending. -/
def storeSet : Store → String → RedisVal → Store
  | [], key, v => [(key, v)]
  | (k, w) :: rest, key, v =>
    if k = key then (key, v) :: rest else (k, w) :: storeSet rest key v

/-- Lookup of one field inside a hash value's field list. -/
def getField : List (String × String) → String → Option String
  | [], _ => none
  | (g, v) :: rest, f => if g = f then some v else getField rest f

/-- Overwrite one field inside a hash value's field list (replace the first
binding or append). -/
def setField : List (String × String) → String → String → List (String × String)
  | [], f, v => [(f, v)]
  | (g, w) :: rest, f, v =>
    if g = f then (f, v) :: rest else (g, w) :: setField rest f v

/-- redis `HGETALL key`: the field map at `key`, empty if the key is absent,
`WRONGTYPE` if the key holds a list. -/
def hgetall (st : Store) (key : String) : Option (List (String × String)) :=
  match lookupVal st key with
  | none => some []
  | some (.hash fs) => some fs
  | some (.list _) => none

/-- redis `HMSET key mapping`: set each given field of the hash at `key`,
creating the hash if absent and preserving fields not mentioned;
`WRONGTYPE` if the key holds a list. -/
def hmset (st : Store) (key : String) (mapping : List (String × String)) :
    Option Store :=
  match lookupVal st key with
  | none =>
    some (storeSet st key (.hash (mapping.foldl (fun fs p => setField fs p.1 p.2) [])))
  | some (.hash fs) =>
    some (storeSet st key (.hash (mapping.foldl (fun fs p => setField fs p.1 p.2) fs)))
  | some (.list _) => none

/-- Remove the first occurrence of `v` from a list of items. -/
def removeFirst : List String → String → List String
  | [], _ => []
  | x :: rest, v => if x = v then rest else x :: removeFirst rest v

/-- redis `LREM key 1 value`: remove the first occurrence of `value` from the
head of the list at `key`, returning the number removed; a missing key is an
empty list (0 removed, no change); `WRONGTYPE` if the key holds a hash. -/
def lrem1 (st : Store) (key : String) (v : String) : Option (Store × Nat) :=
  match lookupVal st key with
  | none => some (st, 0)
  | some (.list xs) =>
    some (storeSet st key (.list (removeFirst xs v)),
          if xs.contains v then 1 else 0)
  | some (.hash _) => none

/-- redis `LPUSH key value`: prepend `value` to the list at `key`, creating it
if absent; `WRONGTYPE` if the key holds a hash. -/
def lpush (st : Store) (key : String) (v : String) : Option Store :=
  match lookupVal st key with
  | none => some (storeSet st key (.list [v]))
  | some (.list xs) => some (storeSet st key (.list (v :: xs)))
  | some (.hash _) => none

/-- redis `LRANGE key 0 -1`: the whole list at `key`, empty if absent,
`WRONGTYPE` if the key holds a hash. -/
def lrangeAll (st : Store) (key : String) : Option (List String) :=
  match lookupVal st key with
  | none => some []
  | some (.list xs) => some xs
  | some (.hash _) => none

/-- Character-list prefix test backing `startsWith`. -/
def charsPrefix : List Char → List Char → Bool
  | [], _ => true
  | _ :: _, [] => false
  | a :: as, b :: bs => a == b && charsPrefix as bs

/-- Python `s.startswith(pre)`. -/
def startsWith (s pre : String) : Bool := charsPrefix pre.data s.data

/-- redis `SCAN` with glob `pre ++ "*"`: all keys of the store having `pre`
as a prefix (the glob `*` matches any, possibly empty, suffix), in store
order.  The `count` hint of `scan_iter` only sizes pages and is dropped. -/
def scanKeys (st : Store) (pre : String) : List String :=
  (st.map Prod.fst).filter (fun k => startsWith k pre)

/-- The mutable state of a `RedisJanitor` instance (its `self` attributes).
The redis client and logger carry no state of their own and are dropped;
the clock and the Kubernetes API are explicit arguments of the operations. -/
structure Janitor where
  /-- `self.queue`, the work-queue name (`str(queue).lower()`). -/
  queue : String
  /-- `self.namespace`. -/
  ns : String
  /-- `self.backoff`. -/
  backoff : Int
  /-- `self.stale_time` (seconds, `int(stale_time)`). -/
  stale_time : Int
  /-- `self.restart_failures`. -/
  restart_failures : Bool
  /-- `self.failure_stale_seconds`. -/
  failure_stale_seconds : Int
  /-- `self.pod_refresh_interval` (seconds, `int(pod_refresh_interval)`). -/
  pod_refresh_interval : Int
  /-- `self.cleaning_queue`, `None` until `clean()` sets it. -/
  cleaning_queue : Option String
  /-- `self.pods`, a dict from pod name to pod. -/
  pods : List (String × Pod)
  /-- `self.pods_updated_at`, `None` until the first `_update_pods`. -/
  pods_updated_at : Option Int
  /-- `self.whitelisted_pods`. -/
  whitelisted_pods : List String
  /-- `self.valid_pod_phases`. -/
  valid_pod_phases : List String
  /-- `self.total_repairs`. -/
  total_repairs : Nat
  /-- `self.processing_queue`, `'processing-{}'.format(self.queue)`. -/
  processing_queue : String
deriving DecidableEq, Repr

/-- `RedisJanitor.__init__` (the `redis_client` argument carries no state and
is dropped). -/
def Janitor.init (queue : String) (ns : String) (backoff : Int)
    (stale_time : Int) (restart_failures : Bool) (failure_stale_seconds : Int)
    (pod_refresh_interval : Int) : Janitor :=
  { queue := queue.toLower
    ns := ns
    backoff := backoff
    stale_time := stale_time
    restart_failures := restart_failures
    failure_stale_seconds := failure_stale_seconds
    pod_refresh_interval := pod_refresh_interval
    cleaning_queue := none
    pods := []
    pods_updated_at := none
    whitelisted_pods := ["zip-consumer"]
    valid_pod_phases := ["Running", "Pending"]
    total_repairs := 0
    processing_queue := "processing-" ++ queue.toLower }

/-- Python `str(x)` for an optional string: `str(None) = "None"`. -/
def strOfOpt : Option String → String
  | none => "None"
  | some s => s

/-- `RedisJanitor.is_whitelisted`: stringify the argument and test whether it
starts with any whitelisted prefix. -/
def is_whitelisted (j : Janitor) (pod_name : Option String) : Bool :=
  let s := strOfOpt pod_name
  j.whitelisted_pods.any (fun x => startsWith s x)

/-- `RedisJanitor.remove_key_from_queue`: `lrem(self.processing_queue, 1,
redis_key)`.  Note the target is the fixed attribute `self.processing_queue`,
not the queue currently being swept. -/
def remove_key_from_queue (j : Janitor) (st : Store) (redis_key : String) :
    Option (Store × Nat) :=
  lrem1 st j.processing_queue redis_key

/-- The character for a decimal digit value (values above 9 never occur). -/
def digitChar : Nat → Char
  | 0 => '0' | 1 => '1' | 2 => '2' | 3 => '3' | 4 => '4'
  | 5 => '5' | 6 => '6' | 7 => '7' | 8 => '8' | _ => '9'

/-- The decimal value of a digit character, `none` on a non-digit. -/
def digitVal (c : Char) : Option Nat :=
  if c = '0' then some 0 else if c = '1' then some 1
  else if c = '2' then some 2 else if c = '3' then some 3
  else if c = '4' then some 4 else if c = '5' then some 5
  else if c = '6' then some 6 else if c = '7' then some 7
  else if c = '8' then some 8 else if c = '9' then some 9
  else none

/-- Decimal digits of a positive number, most significant first (the first
argument is recursion fuel; any fuel at least the digit count is enough). -/
def natDigitsAux : Nat → Nat → List Char
  | 0, _ => []
  | _ + 1, 0 => []
  | fuel + 1, n + 1 =>
    natDigitsAux fuel ((n + 1) / 10) ++ [digitChar ((n + 1) % 10)]

/-- Decimal rendering of a natural number. -/
def natToChars (n : Nat) : List Char :=
  if n = 0 then ['0'] else natDigitsAux n n

/-- `datetime.isoformat` under the integer-seconds time model: an instant is
rendered as its decimal number of seconds. -/
def isoformat (t : Int) : String :=
  match t with
  | .ofNat n => String.mk (natToChars n)
  | .negSucc n => String.mk ('-' :: natToChars (n + 1))

/-- Accumulating decimal parse of a digit string. -/
def parseNatAux : List Char → Nat → Option Nat
  | [], acc => some acc
  | c :: cs, acc =>
    match digitVal c with
    | none => none
    | some d => parseNatAux cs (acc * 10 + d)

/-- `dateutil.parser.parse` under the integer-seconds time model: a decimal
string of seconds (optionally negative) parses to its instant; `none` models
the parse exception on unparsable input. -/
def parseTime (s : String) : Option Int :=
  match s.data with
  | [] => none
  | '-' :: c :: cs => (parseNatAux (c :: cs) 0).map (fun n => -(n : Int))
  | cs => (parseNatAux cs 0).map (fun n => (n : Int))

/-- `RedisJanitor.restart_redis_key`: rewrite `status` and `updated_at` in the
key's hash, remove the key from `self.processing_queue`, push it onto the work
queue.  The `new_status` argument is whatever `hvals.get('status')` returned
when the caller kept the current status, hence an `Option String`; a `None`
status is rejected by the redis client when written (`DataError`), modelled as
`none`. -/
def restart_redis_key (j : Janitor) (now : Int) (st : Store)
    (redis_key : String) (new_status : Option String) : Option Store := do
  let ns ← new_status
  let st ← hmset st redis_key [("status", ns), ("updated_at", isoformat now)]
  let (st, _) ← remove_key_from_queue j st redis_key
  let st ← lpush st j.queue redis_key
  pure st

/-- `RedisJanitor.list_pod_for_all_namespaces`: an `ApiException` from the
Kubernetes client is caught, logged, and turned into the empty list. -/
def list_pod_for_all_namespaces (fetch : Except String (List Pod)) :
    List Pod :=
  match fetch with
  | .error _ => []
  | .ok pods => pods

/-- Association-list insert used to model the dict comprehension
`{pod.metadata.name: pod for pod in namespaced_pods}` (a later duplicate name
overwrites an earlier one). -/
def setPod : List (String × Pod) → String → Pod → List (String × Pod)
  | [], k, v => [(k, v)]
  | (k0, v0) :: rest, k, v =>
    if k0 = k then (k, v) :: rest else (k0, v0) :: setPod rest k v

/-- The dict comprehension `{pod.metadata.name: pod for pod in pods}`. -/
def buildPodMap (pods : List Pod) : List (String × Pod) :=
  pods.foldl (fun m p => setPod m p.name p) []

/-- `RedisJanitor._update_pods`: refresh the pod snapshot from the API (an
API failure yields the empty list) and set `pods_updated_at` to now. -/
def update_pods_now (j : Janitor) (fetch : Except String (List Pod))
    (now : Int) : Janitor :=
  let namespaced_pods := list_pod_for_all_namespaces fetch
  { j with pods := buildPodMap namespaced_pods, pods_updated_at := some now }

/-- `RedisJanitor.update_pods`: refresh on first use; otherwise compute
`diff = self.pods_updated_at - datetime.datetime.now(pytz.UTC)` and refresh
when `diff.total_seconds() > self.pod_refresh_interval`.  (The source's
`isinstance` guard always passes here because `pods_updated_at` is typed as a
time.) -/
def update_pods (j : Janitor) (fetch : Except String (List Pod))
    (now : Int) : Janitor :=
  match j.pods_updated_at with
  | none => update_pods_now j fetch now
  | some t =>
    let diff := t - now
    if diff > j.pod_refresh_interval then update_pods_now j fetch now else j

/-- The `updated_time` argument of `is_stale_update_time`: Python `None`, a
textual timestamp, or an already-parsed `datetime`. -/
inductive TimeArg where
  | noneA
  | strA (s : String)
  | dtA (t : Int)
deriving DecidableEq, Repr

/-- Python truthiness of a `TimeArg`: `None` and the empty string are falsy,
a `datetime` is always truthy. -/
def truthyTime : TimeArg → Bool
  | .noneA => false
  | .strA s => s ≠ ""
  | .dtA _ => true

/-- The `updated_time` value obtained from `hvals.get('updated_at')` (absent
field or stored string). -/
def timeArgOfField : Option String → TimeArg
  | none => .noneA
  | some s => .strA s

/-- `RedisJanitor.is_stale_update_time`.  A falsy `stale_time` argument
(`None`, or `0`) is replaced by `self.stale_time`; a falsy `updated_time` is
never stale; a non-positive threshold disables staleness; otherwise a textual
time is parsed (`none` models the raised parse error) and the entry is stale
iff `now - updated_time >= stale_time`. -/
def is_stale_update_time (j : Janitor) (now : Int) (updated_time : TimeArg)
    (stale_arg : Option Int) : Option Bool :=
  let stale_time :=
    match stale_arg with
    | none => j.stale_time
    | some t => if t = 0 then j.stale_time else t
  if ¬ truthyTime updated_time then some false
  else if ¬ (stale_time > 0) then some false
  else
    match (match updated_time with
           | .noneA => none
           | .strA s => parseTime s
           | .dtA t => some t) with
    | none => none
    | some u => some (decide (now - u ≥ stale_time))

/-- The outcome of repairing one entry, refining the boolean returned by
`clean_key`: `False` is `Untouched`; `True` is `Removed` when the
finished-status branch ran and `Requeued` when the restart branch ran. -/
inductive RepairOutcome where
  | Untouched
  | Removed
  | Requeued
deriving DecidableEq, Repr

/-- The boolean `clean_key` actually returns (`int(is_key_cleaned)` counts a
repair exactly when this is true). -/
def RepairOutcome.toBool : RepairOutcome → Bool
  | .Untouched => false
  | .Removed => true
  | .Requeued => true

/-- `RedisJanitor.clean_key`: fetch the hash record, refresh pods, return
`False` (`Untouched`) when not stale; for a stale `done`/`failed` entry remove
it from `self.processing_queue` and return `True` (`Removed`); otherwise pick
the replacement status via the whitelist and restart the key, returning `True`
(`Requeued`). -/
def clean_key (j : Janitor) (fetch : Except String (List Pod)) (now : Int)
    (st : Store) (key : String) : Option (RepairOutcome × Janitor × Store) := do
  let hvals ← hgetall st key
  let j := update_pods j fetch now
  let key_status := getField hvals "status"
  let stale ← is_stale_update_time j now
    (timeArgOfField (getField hvals "updated_at")) none
  if ¬ stale then
    pure (.Untouched, j, st)
  else if key_status == some "done" || key_status == some "failed" then
    let (st, _) ← remove_key_from_queue j st key
    pure (.Removed, j, st)
  else
    let new_status :=
      if is_whitelisted j (getField hvals "updated_by") then key_status
      else some "new"
    let st ← restart_redis_key j now st key new_status
    pure (.Requeued, j, st)

/-- `RedisJanitor.get_processing_keys`: scan for keys matching
`'{}:*'.format(self.processing_queue)`. -/
def get_processing_keys (j : Janitor) (st : Store) : List String :=
  scanKeys st (j.processing_queue ++ ":")

/-- The inner loop of `clean`: `for key in lrange(q, 0, -1)`, accumulating
`cleaned += int(clean_key(key))`. -/
def clean_keys_in (fetch : Except String (List Pod)) (now : Int) :
    Janitor → Store → List String → Nat → Option (Janitor × Store × Nat)
  | j, st, [], cleaned => some (j, st, cleaned)
  | j, st, key :: rest, cleaned => do
    let (o, j, st) ← clean_key j fetch now st key
    clean_keys_in fetch now j st rest (cleaned + o.toBool.toNat)

/-- The outer loop of `clean`: `for q in get_processing_keys()`, setting
`self.cleaning_queue = q` and sweeping the snapshot `lrange(q, 0, -1)`. -/
def clean_queues (fetch : Except String (List Pod)) (now : Int) :
    Janitor → Store → List String → Nat → Option (Janitor × Store × Nat)
  | j, st, [], cleaned => some (j, st, cleaned)
  | j, st, q :: rest, cleaned => do
    let j := { j with cleaning_queue := some q }
    let keys ← lrangeAll st q
    let (j, st, cleaned) ← clean_keys_in fetch now j st keys cleaned
    clean_queues fetch now j st rest cleaned

/-- `RedisJanitor.clean`: sweep every scanned processing queue (the scan is
modelled as a snapshot taken when the sweep starts), then, when any repair
happened, add the cycle's count to `self.total_repairs`.  The Python method
has no `return` statement, so its value is `None`: the final component
models that returned value. -/
def clean (j : Janitor) (fetch : Except String (List Pod)) (now : Int)
    (st : Store) : Option (Janitor × Store × Option Nat) := do
  let (j, st, cleaned) ←
    clean_queues fetch now j st (get_processing_keys j st) 0
  let j :=
    if cleaned ≠ 0 then { j with total_repairs := j.total_repairs + cleaned }
    else j
  pure (j, st, none)

/-- Spec-side restatement of the sweep for the reconciler contract: the same
traversal as `clean`, recorded as the trace of per-entry `RepairOutcome`s in
order, instead of an integer accumulator. -/
def sweep_outcomes_keys (fetch : Except String (List Pod)) (now : Int) :
    Janitor → Store → List String → Option (List RepairOutcome × Janitor × Store)
  | j, st, [] => some ([], j, st)
  | j, st, key :: rest => do
    let (o, j, st) ← clean_key j fetch now st key
    let (os, j, st) ← sweep_outcomes_keys fetch now j st rest
    pure (o :: os, j, st)

/-- Spec-side restatement of the outer sweep loop as an outcome trace. -/
def sweep_outcomes_queues (fetch : Except String (List Pod)) (now : Int) :
    Janitor → Store → List String → Option (List RepairOutcome × Janitor × Store)
  | j, st, [] => some ([], j, st)
  | j, st, q :: rest => do
    let j := { j with cleaning_queue := some q }
    let keys ← lrangeAll st q
    let (os, j, st) ← sweep_outcomes_keys fetch now j st keys
    let (os2, j, st) ← sweep_outcomes_queues fetch now j st rest
    pure (os ++ os2, j, st)

/-- The outcome trace of one full sweep. -/
def sweep_outcomes (j : Janitor) (fetch : Except String (List Pod))
    (now : Int) (st : Store) :
    Option (List RepairOutcome × Janitor × Store) :=
  sweep_outcomes_queues fetch now j st (get_processing_keys j st)

/-- Counts `Removed` and `Requeued` outcomes of a trace as repairs. -/
def repairCount (os : List RepairOutcome) : Nat :=
  (os.filter RepairOutcome.toBool).length

/-! ### Concrete states used by the claim theorems

`exJan` spells out `Janitor.init "q" "default" 3 600 false 60 10`: the state
of `RedisJanitor(redis_client, 'q')` with the default keyword arguments
(stale threshold 600 s, pod refresh interval 10 s, whitelist
`['zip-consumer']`, processing-queue attribute `processing-q`). -/
def exJan : Janitor :=
  { queue := "q", ns := "default", backoff := 3, stale_time := 600,
    restart_failures := false, failure_stale_seconds := 60,
    pod_refresh_interval := 10, cleaning_queue := none, pods := [],
    pods_updated_at := none, whitelisted_pods := ["zip-consumer"],
    valid_pod_phases := ["Running", "Pending"], total_repairs := 0,
    processing_queue := "processing-q" }

/-- A store holding one processing queue `processing-q:host` whose only entry
`job1` has a finished status and an `updated_at` 1000 seconds before the
sweep instant 1000 (stale for the 600-second threshold). -/
def exStoreDone : Store :=
  [("processing-q:host", .list ["job1"]),
   ("job1", .hash [("status", "done"), ("updated_at", "0")])]

/-- `exJan` after a pod refresh at instant 0. -/
def jC2 : Janitor := { exJan with pods_updated_at := some 0 }

/-- `exJan` holding a non-empty pod snapshot fetched at instant 0. -/
def jC5 : Janitor :=
  { exJan with
    pods := [("pod-a", Pod.mk "pod-a" "Running")]
    pods_updated_at := some 0 }

/-- The janitor state `clean exJan _ 1000 exStoreDone` produces: one repair
counted, `cleaning_queue` set to the single scanned queue, pods refreshed. -/
def cleanJ2 : Janitor :=
  { exJan with
    cleaning_queue := some "processing-q:host"
    pods_updated_at := some 1000
    total_repairs := 1 }

/-- A store whose only entry `job2` is stale, in progress, and last updated
by a worker matching the `zip-consumer` whitelist prefix. -/
def exStoreWhite : Store :=
  [("processing-q:host", .list ["job2"]),
   ("job2", .hash [("status", "processing"), ("updated_at", "0"),
                   ("updated_by", "zip-consumer-9")])]

/-- A store whose only entry `job3` is stale and in progress, with no
`updated_by` field in its hash record. -/
def exStoreNoBy : Store :=
  [("processing-q:host", .list ["job3"]),
   ("job3", .hash [("status", "processing"), ("updated_at", "0")])]

/-! ### Helper lemmas -/

theorem lookupVal_storeSet_same (st : Store) (k : String) (v : RedisVal) :
    lookupVal (storeSet st k v) k = some v := by
  induction st with
  | nil => simp [storeSet, lookupVal]
  | cons p rest ih =>
    obtain ⟨k0, w⟩ := p
    by_cases h : k0 = k
    · simp [storeSet, h, lookupVal]
    · simp [storeSet, h, lookupVal, ih]

theorem lookupVal_storeSet_other (st : Store) (k k' : String) (v : RedisVal)
    (h : k' ≠ k) : lookupVal (storeSet st k v) k' = lookupVal st k' := by
  induction st with
  | nil => simp [storeSet, lookupVal, Ne.symm h]
  | cons p rest ih =>
    obtain ⟨k0, w⟩ := p
    by_cases hk : k0 = k
    · subst hk
      simp [storeSet, lookupVal, Ne.symm h]
    · simp [storeSet, hk, lookupVal, ih]

theorem getField_setField_same (fs : List (String × String)) (f v : String) :
    getField (setField fs f v) f = some v := by
  induction fs with
  | nil => simp [setField, getField]
  | cons p rest ih =>
    obtain ⟨g, w⟩ := p
    by_cases h : g = f
    · simp [setField, h, getField]
    · simp [setField, h, getField, ih]

theorem getField_setField_other (fs : List (String × String)) (f g v : String)
    (h : g ≠ f) : getField (setField fs g v) f = getField fs f := by
  induction fs with
  | nil => simp [setField, getField, h]
  | cons p rest ih =>
    obtain ⟨g0, w⟩ := p
    by_cases hg : g0 = g
    · subst hg
      simp [setField, getField, h]
    · simp [setField, hg, getField, ih]

/-- `update_pods` only touches `pods` and `pods_updated_at`. -/
theorem update_pods_preserves (j : Janitor) (fetch : Except String (List Pod))
    (now : Int) :
    (update_pods j fetch now).whitelisted_pods = j.whitelisted_pods ∧
    (update_pods j fetch now).total_repairs = j.total_repairs ∧
    (update_pods j fetch now).stale_time = j.stale_time := by
  unfold update_pods update_pods_now
  cases j.pods_updated_at with
  | none => simp
  | some t =>
    by_cases h : t - now > j.pod_refresh_interval <;> simp [h]

theorem clean_key_janitor (j : Janitor) (fetch : Except String (List Pod))
    (now : Int) (st st' : Store) (key : String) (o : RepairOutcome) (j' : Janitor)
    (h : clean_key j fetch now st key = some (o, j', st')) :
    j' = update_pods j fetch now := by
  unfold clean_key at h
  simp only [Option.bind_eq_bind, Option.bind_eq_some] at h
  obtain ⟨hv, hh, h⟩ := h
  obtain ⟨stale, hs, h⟩ := h
  by_cases hstale : (¬ stale = true)
  · rw [if_pos hstale] at h
    simp at h
    exact h.2.1.symm
  · rw [if_neg hstale] at h
    by_cases hb : (getField hv "status" == some "done"
        || getField hv "status" == some "failed") = true
    · rw [if_pos hb] at h
      simp only [Option.bind_eq_bind, Option.bind_eq_some] at h
      obtain ⟨p, hrem, h⟩ := h
      simp at h
      exact h.2.1.symm
    · rw [if_neg hb] at h
      simp only [Option.bind_eq_bind, Option.bind_eq_some] at h
      obtain ⟨st2, hrest, h⟩ := h
      simp at h
      exact h.2.1.symm

theorem repairCount_cons (o : RepairOutcome) (os : List RepairOutcome) :
    repairCount (o :: os) = o.toBool.toNat + repairCount os := by
  cases ho : o.toBool
  · simp [repairCount, ho]
  · simp [repairCount, ho]
    omega

theorem repairCount_append (a b : List RepairOutcome) :
    repairCount (a ++ b) = repairCount a + repairCount b := by
  simp [repairCount, List.filter_append]

theorem sweep_outcomes_keys_total (fetch : Except String (List Pod)) (now : Int)
    (keys : List String) :
    ∀ (j : Janitor) (st : Store) (os : List RepairOutcome) (j' : Janitor) (st' : Store),
      sweep_outcomes_keys fetch now j st keys = some (os, j', st') →
      j'.total_repairs = j.total_repairs := by
  induction keys with
  | nil =>
    intro j st os j' st' h
    simp [sweep_outcomes_keys] at h
    rw [← h.2.1]
  | cons key rest ih =>
    intro j st os j' st' h
    unfold sweep_outcomes_keys at h
    simp only [Option.bind_eq_bind, Option.bind_eq_some] at h
    obtain ⟨⟨o, j1, st1⟩, hck, h⟩ := h
    simp only [Option.bind_eq_some] at h
    obtain ⟨⟨os2, j2, st2⟩, hrec, h⟩ := h
    simp at h
    have hj1 : j1 = update_pods j fetch now := clean_key_janitor j fetch now st st1 key o j1 hck
    have e1 : j1.total_repairs = j.total_repairs := by
      rw [hj1]; exact (update_pods_preserves j fetch now).2.1
    have e2 : j2.total_repairs = j1.total_repairs := ih j1 st1 os2 j2 st2 hrec
    rw [← h.2.1, e2, e1]

theorem sweep_outcomes_queues_total (fetch : Except String (List Pod)) (now : Int)
    (qs : List String) :
    ∀ (j : Janitor) (st : Store) (os : List RepairOutcome) (j' : Janitor) (st' : Store),
      sweep_outcomes_queues fetch now j st qs = some (os, j', st') →
      j'.total_repairs = j.total_repairs := by
  induction qs with
  | nil =>
    intro j st os j' st' h
    simp [sweep_outcomes_queues] at h
    rw [← h.2.1]
  | cons q rest ih =>
    intro j st os j' st' h
    unfold sweep_outcomes_queues at h
    simp only [Option.bind_eq_bind, Option.bind_eq_some] at h
    obtain ⟨keys, hkeys, h⟩ := h
    obtain ⟨⟨os1, j1, st1⟩, hk, h⟩ := h
    simp only [Option.bind_eq_some] at h
    obtain ⟨⟨os2, j2, st2⟩, hrec, h⟩ := h
    simp at h
    have e1 : j1.total_repairs = j.total_repairs := by
      have := sweep_outcomes_keys_total fetch now keys
        { j with cleaning_queue := some q } st os1 j1 st1 hk
      simpa using this
    have e2 : j2.total_repairs = j1.total_repairs := ih j1 st1 os2 j2 st2 hrec
    rw [← h.2.1, e2, e1]

theorem clean_keys_in_eq_sweep (fetch : Except String (List Pod)) (now : Int)
    (keys : List String) :
    ∀ (j : Janitor) (st : Store) (acc : Nat),
      clean_keys_in fetch now j st keys acc =
        (sweep_outcomes_keys fetch now j st keys).map
          (fun r => (r.2.1, r.2.2, acc + repairCount r.1)) := by
  induction keys with
  | nil =>
    intro j st acc
    simp [clean_keys_in, sweep_outcomes_keys, repairCount]
  | cons key rest ih =>
    intro j st acc
    unfold clean_keys_in sweep_outcomes_keys
    cases hck : clean_key j fetch now st key with
    | none => simp
    | some r =>
      obtain ⟨o, j1, st1⟩ := r
      simp only [Option.bind_eq_bind, Option.some_bind]
      rw [ih]
      cases hrec : sweep_outcomes_keys fetch now j1 st1 rest with
      | none => simp
      | some r2 =>
        obtain ⟨os2, j2, st2⟩ := r2
        simp [repairCount_cons]
        omega

theorem clean_queues_eq_sweep (fetch : Except String (List Pod)) (now : Int)
    (qs : List String) :
    ∀ (j : Janitor) (st : Store) (acc : Nat),
      clean_queues fetch now j st qs acc =
        (sweep_outcomes_queues fetch now j st qs).map
          (fun r => (r.2.1, r.2.2, acc + repairCount r.1)) := by
  induction qs with
  | nil =>
    intro j st acc
    simp [clean_queues, sweep_outcomes_queues, repairCount]
  | cons q rest ih =>
    intro j st acc
    unfold clean_queues sweep_outcomes_queues
    cases hkeys : lrangeAll st q with
    | none => simp
    | some keys =>
      simp only [Option.bind_eq_bind, Option.some_bind]
      rw [clean_keys_in_eq_sweep]
      cases hk : sweep_outcomes_keys fetch now { j with cleaning_queue := some q } st keys with
      | none => simp
      | some r1 =>
        obtain ⟨os1, j1, st1⟩ := r1
        simp only [Option.map_some', Option.some_bind]
        rw [ih]
        cases hrec : sweep_outcomes_queues fetch now j1 st1 rest with
        | none => simp
        | some r2 =>
          obtain ⟨os2, j2, st2⟩ := r2
          simp [repairCount_append]
          omega


/-- After a successful `restart_redis_key` with a concrete replacement
status, the key's hash record exists and its `status` field holds that
replacement (the `hmset` wrote it, and neither the `lrem` on the processing
queue nor the `lpush` on the work queue can touch a hash-typed key). -/
theorem restart_redis_key_writes_status (j : Janitor) (now : Int)
    (st st2 : Store) (key s : String)
    (h : restart_redis_key j now st key (some s) = some st2) :
    ∃ fs, hgetall st2 key = some fs ∧ getField fs "status" = some s := by
  unfold restart_redis_key at h
  simp only [Option.bind_eq_bind, Option.some_bind, Option.bind_eq_some] at h
  obtain ⟨st1, hm, h⟩ := h
  obtain ⟨⟨stR, n⟩, hr, h⟩ := h
  simp only [Option.bind_eq_bind, Option.bind_eq_some] at h
  obtain ⟨st3, hp, h⟩ := h
  have hst : st3 = st2 := by simpa using h
  rw [hst] at hp
  have hgf : ∀ fs0 : List (String × String),
      getField ([("status", s), ("updated_at", isoformat now)].foldl
        (fun fs p => setField fs p.1 p.2) fs0) "status" = some s := by
    intro fs0
    simp only [List.foldl]
    rw [getField_setField_other _ _ _ _ (by decide), getField_setField_same]
  have h1 : ∃ fs1, lookupVal st1 key = some (.hash fs1)
      ∧ getField fs1 "status" = some s := by
    unfold hmset at hm
    cases hl : lookupVal st key with
    | none =>
      rw [hl] at hm
      simp at hm
      exact ⟨_, by rw [← hm]; exact lookupVal_storeSet_same st key _, hgf []⟩
    | some v =>
      cases v with
      | hash fs =>
        rw [hl] at hm
        simp at hm
        exact ⟨_, by rw [← hm]; exact lookupVal_storeSet_same st key _, hgf fs⟩
      | list xs =>
        rw [hl] at hm
        simp at hm
  obtain ⟨fs1, hk1, hstat⟩ := h1
  have h2 : lookupVal stR key = some (.hash fs1) := by
    unfold remove_key_from_queue lrem1 at hr
    cases hl : lookupVal st1 j.processing_queue with
    | none =>
      rw [hl] at hr
      simp at hr
      rw [← hr.1]
      exact hk1
    | some v =>
      cases v with
      | hash fs =>
        rw [hl] at hr
        simp at hr
      | list xs =>
        rw [hl] at hr
        simp at hr
        have hne : key ≠ j.processing_queue := by
          intro he
          rw [he, hl] at hk1
          exact absurd hk1 (by simp)
        rw [← hr.1, lookupVal_storeSet_other _ _ _ _ hne]
        exact hk1
  have h3 : lookupVal st2 key = some (.hash fs1) := by
    unfold lpush at hp
    cases hl : lookupVal stR j.queue with
    | none =>
      rw [hl] at hp
      simp at hp
      have hne : key ≠ j.queue := by
        intro he
        rw [he, hl] at h2
        exact absurd h2 (by simp)
      rw [← hp, lookupVal_storeSet_other _ _ _ _ hne]
      exact h2
    | some v =>
      cases v with
      | hash fs =>
        rw [hl] at hp
        simp at hp
      | list xs =>
        rw [hl] at hp
        simp at hp
        have hne : key ≠ j.queue := by
          intro he
          rw [he, hl] at h2
          exact absurd h2 (by simp)
        rw [← hp, lookupVal_storeSet_other _ _ _ _ hne]
        exact h2
  refine ⟨fs1, ?_, hstat⟩
  unfold hgetall
  rw [h3]

/-! ### Verification of the specification claims -/

/-- Claim C1 (refuted, code bug): the spec says every repaired entry is
removed from the processing-queue list it was inspected in.  The code removes
from the fixed attribute `self.processing_queue` (`processing-q`), which the
scan pattern `processing-q:*` can never return, so the inspected queue is
never touched: at the failing input below the sweep scans exactly
`processing-q:host`, counts one repair, and yet leaves `job1` in that list. -/
theorem C1_repair_leaves_entry_in_scanned_queue :
    get_processing_keys exJan exStoreDone = ["processing-q:host"] ∧
    (clean exJan (Except.ok []) 1000 exStoreDone).map
      (fun r => (r.1.total_repairs, lookupVal r.2.1 "processing-q:host"))
      = some (1, some (RedisVal.list ["job1"])) := by decide

/-- Claim C2 (refuted, code bug): the spec says `update_pods` re-fetches
whenever `now - last_refresh >= interval_seconds`.  The code computes
`diff = pods_updated_at - now` (the negation of the age) and refreshes only
when `diff > interval`, so a refresh that is 20 seconds overdue with a
10-second interval changes nothing, although an actual re-fetch
(`_update_pods`) would change the state. -/
theorem C2_overdue_refresh_is_skipped :
    jC2.pods_updated_at = some 0 ∧ (20 : Int) - 0 ≥ jC2.pod_refresh_interval ∧
    update_pods jC2 (Except.ok [Pod.mk "pod-a" "Running"]) 20 = jC2 ∧
    update_pods_now jC2 (Except.ok [Pod.mk "pod-a" "Running"]) 20 ≠ jC2 := by
  decide

/-- Claim C3, counterexample: a threshold of exactly `0` is falsy in Python,
so `stale_time = stale_time if stale_time else self.stale_time` replaces it
with the configured 600-second threshold, and a 1000-second-old
`updated_at` is reported stale even though the claim demands `false` for
every threshold `t <= 0`. -/
theorem C3_zero_threshold_stale_counterexample :
    (0 : Int) ≤ 0 ∧ exJan.stale_time = 600 ∧
    is_stale_update_time exJan 1000 (TimeArg.dtA 0) (some 0) = some true := by
  decide

/-- Claim C3 (amended): for every strictly negative threshold
`is_stale_update_time` returns `false` whatever the `updated_at` value
(absent, textual, or already parsed), and the threshold `0` is treated
exactly like an absent threshold argument (it falls back to the configured
`stale_time`). -/
theorem C3_nonpositive_threshold_amended (j : Janitor) (now : Int)
    (u : TimeArg) (t : Int) :
    (t < 0 → is_stale_update_time j now u (some t) = some false) ∧
    is_stale_update_time j now u (some 0) = is_stale_update_time j now u none := by
  constructor
  · intro ht
    have ht0 : t ≠ 0 := by omega
    unfold is_stale_update_time
    simp only [if_neg ht0]
    by_cases hu : truthyTime u = true
    · have hnp : ¬ t > 0 := by omega
      simp [hu, hnp]
    · simp [hu]
  · rfl

/-- Witness for the amended claim C3 at threshold `-1` on an already-parsed
`updated_at`. -/
theorem C3_nonpositive_threshold_amended_witness :
    is_stale_update_time exJan 0 (TimeArg.dtA 0) (some (-1)) = some false ∧
    is_stale_update_time exJan 0 (TimeArg.dtA 0) (some 0)
      = is_stale_update_time exJan 0 (TimeArg.dtA 0) none :=
  ⟨(C3_nonpositive_threshold_amended exJan 0 (TimeArg.dtA 0) (-1)).1 (by decide),
   (C3_nonpositive_threshold_amended exJan 0 (TimeArg.dtA 0) 0).2⟩

/-- Claim C4 (refuted, code bug): the spec promises that a second sweep with
no new staleness repairs nothing.  Because the removal of a finished stale
entry targets `processing-q` instead of the scanned `processing-q:host`
(the C1 bug), the entry is still listed and still stale on the second sweep
and is counted again: `total_repairs` goes 1, then 2. -/
theorem C4_second_sweep_repairs_same_entry :
    ((do
      let (j1, st1, _) ← clean exJan (Except.ok []) 1000 exStoreDone
      let (j2, st2, _) ← clean j1 (Except.ok []) 1000 st1
      pure (j1.total_repairs, j2.total_repairs,
            lookupVal st2 "processing-q:host")) : Option (Nat × Nat × Option RedisVal))
      = some (1, 2, some (RedisVal.list ["job1"])) := by decide

/-- Claim C5, counterexample: the spec says a failed pod fetch leaves the
previous snapshot in place; in the code `list_pod_for_all_namespaces`
converts the `ApiException` into an empty list, so `_update_pods` replaces a
non-empty snapshot with the empty mapping. -/
theorem C5_error_replaces_snapshot_counterexample :
    jC5.pods = [("pod-a", Pod.mk "pod-a" "Running")] ∧
    (update_pods_now jC5 (Except.error "ApiException") 20).pods = [] := by
  decide

/-- Claim C5 (amended): a transport error during the pod fetch is caught and
degraded to an empty pod list, so the refresh replaces the held snapshot
with the empty mapping and still resets the refresh timestamp; the janitor
does not crash. -/
theorem C5_error_refresh_empties_snapshot_amended (j : Janitor) (e : String)
    (now : Int) :
    update_pods_now j (Except.error e) now
      = { j with pods := [], pods_updated_at := some now } := rfl

/-- Claim C6, counterexample: the spec contract is `run_once() ->
repaired_count`, but `clean` has no `return` statement: at an input where
one entry is repaired (`total_repairs` becomes 1) the returned value is
`None`, not `1`. -/
theorem C6_clean_returns_none_counterexample :
    (clean exJan (Except.ok []) 1000 exStoreDone).map
      (fun r => (r.2.2, r.1.total_repairs)) = some (none, 1) := by decide

/-- Claim C6 (amended): `clean` counts the `Removed` and `Requeued` outcomes
of the sweep as repairs and adds that count to the lifetime `total_repairs`
counter, but returns `None` rather than the count. -/
theorem C6_clean_accumulates_amended (j j2 : Janitor)
    (fetch : Except String (List Pod)) (now : Int) (st st2 : Store)
    (ret : Option Nat)
    (h : clean j fetch now st = some (j2, st2, ret)) :
    ret = none ∧
    ∃ os jq stq,
      sweep_outcomes j fetch now st = some (os, jq, stq) ∧
      j2.total_repairs = j.total_repairs + repairCount os := by
  unfold clean at h
  rw [clean_queues_eq_sweep] at h
  unfold sweep_outcomes
  cases hs : sweep_outcomes_queues fetch now j st (get_processing_keys j st) with
  | none => rw [hs] at h; simp at h
  | some r =>
    obtain ⟨os, jq, stq⟩ := r
    rw [hs] at h
    simp only [Option.map_some', Option.bind_eq_bind, Option.some_bind] at h
    have hq : jq.total_repairs = j.total_repairs :=
      sweep_outcomes_queues_total fetch now _ j st os jq stq hs
    by_cases hc : repairCount os = 0
    · simp only [Nat.zero_add, hc, ne_eq, not_true_eq_false, if_false] at h
      simp at h
      refine ⟨h.2.2.symm, os, jq, stq, rfl, ?_⟩
      rw [← h.1, hq, hc]
      simp
    · simp only [Nat.zero_add, ne_eq, hc, not_false_eq_true, if_true] at h
      simp at h
      refine ⟨h.2.2.symm, os, jq, stq, rfl, ?_⟩
      rw [← h.1]
      simp [hq]

/-- Witness for the amended claim C6 on the one-repair sweep of
`exStoreDone`. -/
theorem C6_clean_accumulates_amended_witness :
    (none : Option Nat) = none ∧
    ∃ os jq stq,
      sweep_outcomes exJan (Except.ok []) 1000 exStoreDone = some (os, jq, stq) ∧
      cleanJ2.total_repairs = exJan.total_repairs + repairCount os :=
  C6_clean_accumulates_amended exJan cleanJ2 (Except.ok []) 1000 exStoreDone
    exStoreDone none (by decide)

/-- Claim C7 (refuted, code bug): for a stale finished entry the repair does
return `Removed`, leaves the hash record unrewritten, and pushes nothing
onto the work queue `q` — but the entry is not removed from the processing
queue it was found in: the `lrem` goes to the fixed `processing-q` key and
`processing-q:host` still contains `job1`. -/
theorem C7_finished_entry_removed_but_queue_unchanged :
    (clean_key exJan (Except.ok []) 1000 exStoreDone "job1").map
      (fun r => (r.1, lookupVal r.2.2 "job1",
                 lookupVal r.2.2 "q", lookupVal r.2.2 "processing-q:host"))
      = some (RepairOutcome.Removed,
              some (RedisVal.hash [("status", "done"), ("updated_at", "0")]),
              none,
              some (RedisVal.list ["job1"])) := by decide

/-- Claim C8 (refuted, code bug): for a stale in-progress entry whose
`updated_by` matches the `zip-consumer` whitelist prefix the repair returns
`Requeued`, keeps the current status `processing`, writes the fresh
`updated_at` 1000, and pushes the identifier onto the work queue `q` — all
as claimed — but the entry is not removed from the processing queue it was
inspected in: `processing-q:host` still contains `job2`. -/
theorem C8_whitelisted_requeue_keeps_status_but_queue_unchanged :
    (clean_key exJan (Except.ok []) 1000 exStoreWhite "job2").map
      (fun r => (r.1, lookupVal r.2.2 "job2",
                 lookupVal r.2.2 "q", lookupVal r.2.2 "processing-q:host"))
      = some (RepairOutcome.Requeued,
              some (RedisVal.hash [("status", "processing"), ("updated_at", "1000"),
                                   ("updated_by", "zip-consumer-9")]),
              some (RedisVal.list ["job2"]),
              some (RedisVal.list ["job2"])) := by decide

/-- Claim C9 (confirmed): whenever the staleness check of the fetched record
comes out false — in particular for an absent record, whose `hgetall` is the
empty mapping and whose `updated_at` is therefore missing — `clean_key`
returns `False` (`Untouched`) and the store is left exactly as it was; only
the janitor's pod snapshot may have been refreshed on the way. -/
theorem C9_not_stale_entry_is_untouched (j : Janitor)
    (fetch : Except String (List Pod)) (now : Int) (st : Store) (key : String)
    (hv : List (String × String))
    (h1 : hgetall st key = some hv)
    (h2 : is_stale_update_time (update_pods j fetch now) now
            (timeArgOfField (getField hv "updated_at")) none = some false) :
    clean_key j fetch now st key
      = some (RepairOutcome.Untouched, update_pods j fetch now, st) := by
  unfold clean_key
  rw [h1]
  simp only [Option.bind_eq_bind, Option.some_bind]
  rw [h2]
  simp only [Option.some_bind]
  simp

/-- Witness for claim C9: repairing a key with no record in an empty store
returns `Untouched` and the store stays empty. -/
theorem C9_witness :
    clean_key exJan (Except.ok []) 1000 ([] : Store) "missing"
      = some (RepairOutcome.Untouched, update_pods exJan (Except.ok []) 1000,
              ([] : Store)) :=
  C9_not_stale_entry_is_untouched exJan (Except.ok []) 1000 [] "missing" []
    (by decide) (by decide)

/-- Claim C10 (confirmed): for a stale in-progress entry whose hash record
has no `updated_by` field, `hvals.get('updated_by')` is `None`,
`is_whitelisted` stringifies it to `"None"`, which starts with no prefix of
the `['zip-consumer']` whitelist, so the repair is the restart with
replacement status `'new'`; on any successful restart the rewritten record
indeed carries `status = 'new'`. -/
theorem C10_absent_updated_by_resets_status_to_new (j : Janitor)
    (fetch : Except String (List Pod)) (now : Int) (st : Store) (key : String)
    (hv : List (String × String))
    (h1 : hgetall st key = some hv)
    (h2 : getField hv "updated_by" = none)
    (h3 : is_stale_update_time (update_pods j fetch now) now
            (timeArgOfField (getField hv "updated_at")) none = some true)
    (h4 : (getField hv "status" == some "done"
           || getField hv "status" == some "failed") = false)
    (h5 : j.whitelisted_pods = ["zip-consumer"]) :
    is_whitelisted (update_pods j fetch now) (getField hv "updated_by") = false ∧
    clean_key j fetch now st key
      = (restart_redis_key (update_pods j fetch now) now st key (some "new")).map
          (fun stX => (RepairOutcome.Requeued, update_pods j fetch now, stX)) ∧
    ∀ st2, clean_key j fetch now st key
        = some (RepairOutcome.Requeued, update_pods j fetch now, st2) →
      ∃ fs, hgetall st2 key = some fs ∧ getField fs "status" = some "new" := by
  have hw : is_whitelisted (update_pods j fetch now)
      (getField hv "updated_by") = false := by
    rw [h2]
    unfold is_whitelisted
    rw [(update_pods_preserves j fetch now).1, h5]
    decide
  have heq : clean_key j fetch now st key
      = (restart_redis_key (update_pods j fetch now) now st key (some "new")).map
          (fun stX => (RepairOutcome.Requeued, update_pods j fetch now, stX)) := by
    unfold clean_key
    rw [h1]
    simp only [Option.bind_eq_bind, Option.some_bind]
    rw [h3]
    simp only [Option.some_bind]
    rw [if_neg (by simp)]
    rw [if_neg (by simp [h4])]
    rw [hw]
    rw [if_neg (by simp)]
    cases hre : restart_redis_key (update_pods j fetch now) now st key (some "new") with
    | none => simp
    | some stX => simp
  refine ⟨hw, heq, ?_⟩
  intro st2 hck
  rw [heq] at hck
  cases hre : restart_redis_key (update_pods j fetch now) now st key (some "new") with
  | none =>
    rw [hre] at hck
    simp at hck
  | some stX =>
    rw [hre] at hck
    simp at hck
    rw [hck] at hre
    exact restart_redis_key_writes_status (update_pods j fetch now) now st st2
      key "new" hre

/-- Witness for claim C10 on the concrete stale entry `job3`, whose record
has no `updated_by` field. -/
theorem C10_witness :
    is_whitelisted (update_pods exJan (Except.ok []) 1000)
      (getField [("status", "processing"), ("updated_at", "0")] "updated_by")
        = false ∧
    clean_key exJan (Except.ok []) 1000 exStoreNoBy "job3"
      = (restart_redis_key (update_pods exJan (Except.ok []) 1000) 1000
            exStoreNoBy "job3" (some "new")).map
          (fun stX => (RepairOutcome.Requeued,
                       update_pods exJan (Except.ok []) 1000, stX)) ∧
    ∀ st2, clean_key exJan (Except.ok []) 1000 exStoreNoBy "job3"
        = some (RepairOutcome.Requeued, update_pods exJan (Except.ok []) 1000, st2) →
      ∃ fs, hgetall st2 "job3" = some fs ∧ getField fs "status" = some "new" :=
  C10_absent_updated_by_resets_status_to_new exJan (Except.ok []) 1000
    exStoreNoBy "job3" [("status", "processing"), ("updated_at", "0")]
    (by decide) (by decide) (by decide) (by decide) (by decide)

end RedisJanitorModel
